import Mathlib

/-!
Verification development for the kyverno-artifact-operator repository.

The Go sources are embedded shallowly:

* pure string/list manipulation (tag extraction, label stamping, checksum
  truncation, orphan predicates) is translated function-by-function;
* external effects (registry HTTP calls, OCI pulls, Kubernetes API reads
  and writes, the filesystem) are passed in as explicit oracle values, and
  stateful loops become functions from the previous state plus the oracle
  outcomes to the new state together with a trace of the actions performed;
* the SHA-256 primitive (Go `crypto/sha256` via `calculateSHA256`) and the
  JSON encoder (`encoding/json.Marshal`) are external library code, so they
  appear as parameters: a hash function from byte lists to hex strings, and
  `spec` subtrees are represented directly by their JSON-encoded bytes.

I/O error paths that the Go code merely logs and skips (failed temp-file
writes, failed YAML re-marshalling) are modelled as absent, i.e. the
corresponding operations are total; every branch the claims talk about is
kept.
-/

namespace KyvernoArtifactOperator

/-! ## Definitions -/

/-! ### Go `strings.Split` on a one-character separator

`goSplit sep l` is `strings.Split(string(l), string(sep))` from the Go
standard library, on the character list of the string.  It never
returns `[]`. -/

def goSplit (sep : Char) : List Char → List (List Char)
  | [] => [[]]
  | c :: cs =>
    if c = sep then [] :: goSplit sep cs
    else
      match goSplit sep cs with
      | [] => [[c]]
      | h :: t => (c :: h) :: t

/-- Go `strings.HasPrefix(s, pre)`. -/
def goHasPre (s pre : String) : Bool :=
  pre.data.isPrefixOf s.data

/-- Substring test on character lists: some tail of `s` starts with `sub`. -/
def listContainsSub (s sub : List Char) : Bool :=
  sub.isPrefixOf s ||
    match s with
    | [] => false
    | _ :: t => listContainsSub t sub

/-- Go `strings.Contains(s, sub)`. -/
def goContains (s sub : String) : Bool :=
  listContainsSub s.data sub.data

/-- Go `strings.TrimSpace`. -/
def goTrimSpace (s : String) : String := s.trim

/-! ### Worker reconciliation loop (`watchLoop`, part_005 lines 280-406)

The loop's external collaborators (`tagChangedFunc`,
`getKubernetesClientsFunc`, `pullImageToDirFunc`, `checksumsChangedFunc`,
`applyManifestsFunc`) are modelled as oracle values in `WEnv`, and the
last-applied-tag file as the `Option String` content of the state file
(`none` = file absent).  The loop returns the new state-file content
together with a trace of the externally visible actions performed, in
order. -/

/-- Configuration fields of `Config` that `watchLoop` consults. -/
structure WConfig where
  pollForTagChanges : Bool
  reconcilePoliciesFromChecksum : Bool
  imageBase : String

/-- Outcomes of the external calls made during one cycle. -/
structure WEnv where
  /-- result of `tagChangedFunc(config)` (polling mode only). -/
  tagChangedR : Except String (Bool × String × String)
  /-- result of `getKubernetesClientsFunc()`. -/
  clientsR : Except String Unit
  /-- result of `pullImageToDirFunc(config, latest, destDir)`:
  the `{file → checksum}` map as an association list. -/
  pullR : Except String (List (String × String))
  /-- result of `checksumsChangedFunc(newChecksums, ...)` (its error result
  is only logged by `watchLoop`; see `checksumsChanged` below, whose error
  is always nil). -/
  checksumR : Bool × List String
  /-- result of `applyManifestsFunc(config, files, ...)`. -/
  applyR : Except String Unit

/-- Externally visible actions of one cycle, in execution order. -/
inductive WAction where
  | pullA (tag : String)
  | applyFileA (f : String)
  | writeLastA (tag : String)
deriving DecidableEq

/-- The part of `watchLoop` after `isTagChanged` and `latest` have been
determined (part_005 lines 331-405). -/
def watchLoopAfterTag (cfg : WConfig) (env : WEnv) (lastFile : Option String)
    (isTagChanged : Bool) (latest : String) :
    Except String (Option String × List WAction) :=
  if !isTagChanged && !cfg.reconcilePoliciesFromChecksum then
    Except.ok (lastFile, [])
  else
    match env.clientsR with
    | Except.error e => Except.error ("failed to get Kubernetes clients: " ++ e)
    | Except.ok _ =>
      if isTagChanged then
        match env.pullR with
        | Except.error e => Except.error ("pull failed: " ++ e)
        | Except.ok newChecksums =>
          let allFiles := newChecksums.map (fun kv => kv.1)
          match env.applyR with
          | Except.error e => Except.error ("apply manifests failed: " ++ e)
          | Except.ok _ =>
            Except.ok (some latest,
              WAction.pullA latest ::
                (allFiles.map WAction.applyFileA ++ [WAction.writeLastA latest]))
      else if cfg.reconcilePoliciesFromChecksum then
        match env.pullR with
        | Except.error e => Except.error ("pull failed: " ++ e)
        | Except.ok _ =>
          let changed := env.checksumR.1
          let filesToApply := env.checksumR.2
          if changed then
            match env.applyR with
            | Except.error e => Except.error ("apply manifests failed: " ++ e)
            | Except.ok _ =>
              Except.ok (some latest,
                WAction.pullA latest ::
                  (filesToApply.map WAction.applyFileA ++ [WAction.writeLastA latest]))
          else
            Except.ok (lastFile, [WAction.pullA latest])
      else
        Except.ok (lastFile, [])

/-- Pinned-mode tag extraction from `IMAGE_BASE` (part_005 lines 297-307):
split on `:`, take the last component, reject it when it contains `/`
(the port-number heuristic). -/
def extractPinnedTag (imageBase : String) : Option String :=
  if imageBase.data.contains ':' then
    let parts := goSplit ':' imageBase.data
    let lastPart := parts.getLastD []
    if lastPart.contains '/' then none
    else some (String.mk lastPart)
  else none

/-- Pinned-mode change predicate (part_005 line 328):
`isTagChanged = (latest != prevTag && prevTag != "")`. -/
def pinnedIsChanged (latest prevTag : String) : Bool :=
  latest != prevTag && prevTag != ""

/-- One worker reconciliation cycle (part_005 lines 280-406). -/
def watchLoop (cfg : WConfig) (env : WEnv) (lastFile : Option String) :
    Except String (Option String × List WAction) :=
  if cfg.pollForTagChanges then
    match env.tagChangedR with
    | Except.error e => Except.error ("error checking for tag change: " ++ e)
    | Except.ok (isTagChanged, latest, _prevTag) =>
      watchLoopAfterTag cfg env lastFile isTagChanged latest
  else
    match extractPinnedTag cfg.imageBase with
    | none => Except.ok (lastFile, [])
    | some tag =>
      let prevTag := lastFile.getD ""
      watchLoopAfterTag cfg env lastFile (pinnedIsChanged tag prevTag) tag

/-- Spec-side description of "everything after the last `:` of the URL",
used to compare the code's split-based extraction against the claim's
wording (the whole string when `:` does not occur). -/
def afterLastColon (u : String) : String :=
  String.mk ((u.data.reverse.takeWhile (fun c => !(c == ':'))).reverse)

/-! ### GHCR latest-tag lookup (`getLatestTagOrDigestReal`, part_005
lines 410-485): only the selection logic over the decoded response is
embedded; the HTTP transport and JSON decoding are external. -/

/-- One entry of the GHCR Packages API response. `updatedAt` stands for
the `updated_at` timestamp; `time.Time.After` is strict `<` on it. -/
structure GitHubPackageVersion where
  id : Int
  updatedAt : Int
  tags : List String

/-- Selection of the most recently updated version (part_005 lines
470-476): start from the first element and replace whenever a strictly
later `updated_at` is seen. -/
def pickLatest (v0 : GitHubPackageVersion) (vs : List GitHubPackageVersion) :
    GitHubPackageVersion :=
  vs.foldl (fun latest v => if latest.updatedAt < v.updatedAt then v else latest) v0

/-- The tag returned for a decoded version list (part_005 lines 466-484):
empty list → `""`; otherwise the first tag of the most recently updated
version, or the pseudo-tag `version-id-<id>` when it has no tags. -/
def getLatestTagOrDigest (versions : List GitHubPackageVersion) : String :=
  match versions with
  | [] => ""
  | v0 :: rest =>
    let latest := pickLatest v0 (v0 :: rest)
    match latest.tags with
    | t :: _ => t
    | [] => "version-id-" ++ toString latest.id

/-- Polling-mode github path of `tagChanged` (helpers.go lines 139-175)
for a decoded version list and the content of the last-applied file
(read errors are ignored by the code: `prev, _ := os.ReadFile`). -/
def tagChangedPollingGithub (versions : List GitHubPackageVersion)
    (lastFileContent : Option String) : Bool × String × String :=
  let latest := getLatestTagOrDigest versions
  if latest = "" then (false, "", "")
  else
    let prevTag := goTrimSpace (lastFileContent.getD "")
    (latest != prevTag, latest, prevTag)

/-! ### Pull pipeline manifest processing (`pullImageToDirReal`,
part_005 lines 605-670): labelling and checksum recording for each YAML
file found in the destination directory after the provider-specific
fetch. -/

/-- The configuration field the manifest processor consults. -/
structure PullConfig where
  artifactName : String

/-- A parsed YAML object: its metadata labels and the JSON encoding of its
`spec` subtree (`none` when `spec` is absent). -/
structure PObj where
  labels : List (String × String)
  specJson : Option (List Nat)

/-- A YAML file on disk: raw bytes plus its parse result (`none` when
`os.ReadFile` or `yaml.Unmarshal` fails, in which case the file is
skipped with a warning). -/
structure YFile where
  raw : List Nat
  parsed : Option PObj

/-- Update of one key in a Go `map[string]string` rendered as an
association list without duplicate keys. -/
def setLabel : List (String × String) → String → String → List (String × String)
  | [], k, v => [(k, v)]
  | e :: t, k, v => if e.1 == k then (k, v) :: t else e :: setLabel t k v

/-- Lookup in a Go `map[string]string` rendered as an association list. -/
def labelGet (ls : List (String × String)) (k : String) : Option String :=
  (ls.find? (fun e => e.1 == k)).map (fun e => e.2)

/-- The untruncated fingerprint source of part_005 lines 627-641: the
`spec` JSON when present, the whole file bytes otherwise, run through the
hex digest `hash` (Go `calculateSHA256`). -/
def fileFingerprint (hash : List Nat → String) (f : YFile) (obj : PObj) : String :=
  match obj.specJson with
  | none => hash f.raw
  | some s => hash s

/-- The label merge of part_005 lines 645-655: `managed-by`,
`policy-version`, `artifact-name` (only when the configured artifact name
is non-empty) and `policy-checksum`. -/
def stampLabels (cfg : PullConfig) (tag ck : String)
    (ls : List (String × String)) : List (String × String) :=
  let l1 := setLabel ls "managed-by" "kyverno-watcher"
  let l2 := setLabel l1 "policy-version" tag
  let l3 := if cfg.artifactName != "" then setLabel l2 "artifact-name" cfg.artifactName else l2
  setLabel l3 "policy-checksum" ck

/-- Processing of a single pulled YAML file (part_005 lines 614-667):
compute the fingerprint, truncate to 48 characters, merge the four
tracking labels, and return the recorded checksum with the rewritten
object. -/
def processManifest (hash : List Nat → String) (cfg : PullConfig) (tag : String)
    (f : YFile) : Option (String × PObj) :=
  match f.parsed with
  | none => none
  | some obj =>
    let ck := (fileFingerprint hash f obj).take 48
    some (ck, { obj with labels := stampLabels cfg tag ck obj.labels })

/-- The `{file → fingerprint}` result map of the pull pipeline over the
YAML files found in the destination directory (files that fail to read or
parse contribute nothing). -/
def pullProcess (hash : List Nat → String) (cfg : PullConfig) (tag : String)
    (files : List (String × YFile)) : List (String × String) :=
  files.filterMap (fun pf => (processManifest hash cfg tag pf.2).map (fun r => (pf.1, r.1)))

/-! ### Cluster applier (`applyResource`, part_005 lines 923-989). -/

/-- Result of the dynamic-client Get for the object's scope-aware key. -/
inductive GetRes where
  | notFound
  | found (resourceVersion : String)
  | errOther (msg : String)

/-- The fields of an unstructured object that `applyResource` touches. -/
structure KObj where
  name : String
  ns : String
  resourceVersion : String
deriving DecidableEq

/-- The piece of the REST mapping `applyResource` consults
(`mapping.Scope.Name() == meta.RESTScopeNameNamespace`). -/
structure RESTMap where
  namespaced : Bool

/-- The write `applyResource` performs. -/
inductive ApplyOp where
  | createOp (o : KObj)
  | updateOp (o : KObj)
deriving DecidableEq

/-- The `applyResource` function (part_005 lines 923-989): resolve the mapping (failure
means the CRD is not installed), strip the namespace from cluster-scoped
objects, Get, then Create when not found, Update (at the fetched
resourceVersion) when found, and propagate any other Get error. -/
def applyResource (mapping : Option RESTMap) (get : KObj → GetRes) (obj : KObj) :
    Except String ApplyOp :=
  match mapping with
  | none => Except.error "failed to get REST mapping (CRD may not be installed)"
  | some m =>
    let isNamespaced := m.namespaced
    let obj2 := if !isNamespaced && obj.ns != "" then { obj with ns := "" } else obj
    match get obj2 with
    | GetRes.notFound => Except.ok (ApplyOp.createOp obj2)
    | GetRes.errOther e => Except.error ("failed to get existing resource: " ++ e)
    | GetRes.found rv => Except.ok (ApplyOp.updateOp { obj2 with resourceVersion := rv })

/-! ### Controller drift detection (`KyvernoArtifactReconciler.Reconcile`,
part_011 lines 249-345): the branch for an existing worker pod. -/

/-- Kubernetes pod phases. -/
inductive Phase where
  | pending
  | running
  | succeeded
  | failed
  | unknown
deriving DecidableEq

/-- The fields of a pod container that the drift check reads. -/
structure ContainerC where
  image : String
  /-- The container `Env`, as `(name, value)`; entries whose value comes from a secret
  or field reference have value `""` (Go `corev1.EnvVar.Value`). -/
  env : List (String × String)

/-- The fields of the worker pod that the drift check reads. -/
structure PodC where
  phase : Phase
  containers : List ContainerC

/-- The controller configuration field used by the drift check. -/
structure RConfig where
  watcherImage : String

/-- The declared-artifact spec fields used by the drift check
(nullable pointers become `Option`). -/
structure ASpec where
  artifactUrl : Option String
  pollingInterval : Option Int
  artifactProvider : Option String
  pollForTagChanges : Option Bool

/-- part_011 lines 267-270. -/
def currentArtifactUrl (s : ASpec) : String := s.artifactUrl.getD ""

/-- part_011 lines 272-275 (`fmt.Sprintf("%d", ...)`, default `"60"`). -/
def currentPollingInterval (s : ASpec) : String :=
  match s.pollingInterval with
  | some i => toString i
  | none => "60"

/-- part_011 lines 277-280 (default `"github"`, also for an explicitly
empty provider). -/
def currentProvider (s : ASpec) : String :=
  match s.artifactProvider with
  | some p => if p != "" then p else "github"
  | none => "github"

/-- part_011 lines 308-311 (`fmt.Sprintf("%t", ...)`, default `"true"`). -/
def currentPollForTagChanges (s : ASpec) : String :=
  match s.pollForTagChanges with
  | some b => if b then "true" else "false"
  | none => "true"

/-- The `envMap` of part_011 lines 285-290: only entries with a non-empty
value are kept; iterating a Go slice means later entries overwrite
earlier ones. -/
def envMapFind (env : List (String × String)) (k : String) : Option String :=
  ((env.filter (fun e => e.2 != "")).reverse.find? (fun e => e.1 == k)).map (fun e => e.2)

/-- Go map indexing `envMap[k]`: the zero value `""` when absent. -/
def envMapGet (env : List (String × String)) (k : String) : String :=
  (envMapFind env k).getD ""

/-- part_011 lines 312-317: the pod-side value of
`WATCHER_POLL_FOR_TAG_CHANGES_ENABLED`, defaulting to `"true"` when the
variable is not in the env map. -/
def podPollForTagChanges (env : List (String × String)) : String :=
  (envMapFind env "WATCHER_POLL_FOR_TAG_CHANGES_ENABLED").getD "true"

/-- part_011 lines 264-332: the `needsUpdate` flag for an existing pod.
With no containers none of the checks run and the flag stays false. -/
def needsUpdate (rc : RConfig) (s : ASpec) (pod : PodC) : Bool :=
  match pod.containers with
  | [] => false
  | c :: _ =>
    (envMapGet c.env "IMAGE_BASE" != currentArtifactUrl s)
    || (envMapGet c.env "POLL_INTERVAL" != currentPollingInterval s)
    || (envMapGet c.env "PROVIDER" != currentProvider s)
    || (podPollForTagChanges c.env != currentPollForTagChanges s)
    || (c.image != rc.watcherImage)

/-- What `Reconcile` does with an existing pod. -/
inductive ReconAction where
  | deletePod
  | noop
deriving DecidableEq

/-- part_011 lines 250-345, the pod-exists branch: terminal phase →
delete; configuration or image drift → delete; otherwise leave the pod
alone. -/
def reconcileExistingPod (rc : RConfig) (s : ASpec) (pod : PodC) : ReconAction :=
  if pod.phase == Phase.failed || pod.phase == Phase.succeeded then ReconAction.deletePod
  else if needsUpdate rc s pod then ReconAction.deletePod
  else ReconAction.noop

/-! ### Checksum reconciler (`checksumsChanged`, helpers.go lines 34-100). -/

/-- Result of the dynamic-client Get for an existing policy: the JSON
encoding of its `spec` subtree (`none` when `spec` is absent or nested
field extraction errors), or an error whose message may or may not
contain `"not found"`. -/
inductive GetPolicyRes where
  | found (specJson : Option (List Nat))
  | err (msg : String)

/-- Per-file outcomes of the reconciler's external calls. -/
structure FileEnv where
  /-- Whether `os.ReadFile` and `yaml.Unmarshal` both succeed. -/
  parsed : Bool
  /-- the REST mapping lookup succeeds. -/
  mapping : Bool
  getRes : GetPolicyRes

/-- helpers.go line 65: `strings.Contains(err.Error(), "not found")`. -/
def errIsNotFound (msg : String) : Bool := goContains msg "not found"

/-- The body of the `for file, newChecksum := range newChecksums` loop of
`checksumsChanged` (helpers.go lines 38-97), acting on the accumulated
`(changed, filesToApply)` pair. -/
def checksumStep (hash : List Nat → String) (fenv : String → FileEnv)
    (acc : Bool × List String) (entry : String × String) : Bool × List String :=
  let file := entry.1
  let newChecksum := entry.2
  let e := fenv file
  if !e.parsed then acc
  else if !e.mapping then acc
  else
    match e.getRes with
    | GetPolicyRes.err m =>
      if errIsNotFound m then (true, acc.2 ++ [file]) else acc
    | GetPolicyRes.found none => (true, acc.2 ++ [file])
    | GetPolicyRes.found (some specBytes) =>
      let existingChecksum := (hash specBytes).take 48
      if newChecksum != existingChecksum then (true, acc.2 ++ [file]) else acc

/-- The `checksumsChanged` function (helpers.go lines 34-100): fold the step over the
pulled `{file → checksum}` map; the error result is always nil. -/
def checksumsChanged (hash : List Nat → String) (fenv : String → FileEnv)
    (newChecksums : List (String × String)) : Bool × List String × Option String :=
  let r := newChecksums.foldl (checksumStep hash fenv) (false, [])
  (r.1, r.2, none)

/-! ### Garbage collector (`gc.go`).  Cluster reads are modelled as total
over a `ClusterState` snapshot (the code's list-error paths, which return
`false` from the predicate and abort nothing, are not exercised by the
claims). -/

/-- The fields of a pod that the GC reads. -/
structure PodInfo where
  name : String
  phase : Phase
  labels : List (String × String)

/-- The cluster contents the GC queries: the names of all KyvernoArtifact
resources cluster-wide, and all pods. -/
structure ClusterState where
  artifacts : List String
  pods : List PodInfo

/-- gc.go `PolicyInfo`. -/
structure PolicyInfo where
  name : String
  ns : String
  kind : String
  labels : List (String × String)

/-- gc.go lines 281-299: a pod whose name starts with
`kyverno-artifact-manager-<artifactName>` and whose phase is Running or
Pending. -/
def checkForSpecificWatcher (pods : List PodInfo) (artifactName : String) : Bool :=
  pods.any (fun p =>
    goHasPre p.name ("kyverno-artifact-manager-" ++ artifactName)
      && (p.phase == Phase.running || p.phase == Phase.pending))

/-- gc.go lines 301-324: a KyvernoArtifact with the given name exists
cluster-wide. -/
def checkForSpecificKyvernoArtifact (artifacts : List String) (artifactName : String) : Bool :=
  artifacts.any (fun a => a == artifactName)

/-- gc.go lines 326-346: the pod List is filtered by the label selector
`app=kyverno-artifact-manager`, then names are matched against the
`kyverno-artifact-manager-` name pattern and the phase against
Running/Pending. -/
def checkForActiveWatchers (pods : List PodInfo) : Bool :=
  (pods.filter (fun p => labelGet p.labels "app" == some "kyverno-artifact-manager")).any
    (fun p =>
      goHasPre p.name "kyverno-artifact-manager-"
        && (p.phase == Phase.running || p.phase == Phase.pending))

/-- gc.go lines 348-364. -/
def checkForKyvernoArtifacts (artifacts : List String) : Bool :=
  decide (0 < artifacts.length)

/-- gc.go lines 249-278 (`isOrphanedLegacy`). -/
def isOrphanedLegacy (cs : ClusterState) : Bool :=
  if !checkForActiveWatchers cs.pods then true
  else if !checkForKyvernoArtifacts cs.artifacts then true
  else false

/-- gc.go lines 203-246 (`isOrphaned`). -/
def isOrphaned (policy : PolicyInfo) (cs : ClusterState) : Bool :=
  match labelGet policy.labels "policy-version" with
  | none => false
  | some _ =>
    match labelGet policy.labels "artifact-name" with
    | none => isOrphanedLegacy cs
    | some artifactName =>
      if !checkForSpecificKyvernoArtifact cs.artifacts artifactName then true
      else if !checkForSpecificWatcher cs.pods artifactName then true
      else false

/-- Spec-side orphan predicate, following the claim's words: with an
`artifact-name` label, orphaned iff the named declared artifact is absent
cluster-wide or no pod with the deterministic worker name
`kyverno-artifact-manager-<artifactName>` is in phase Running or Pending;
without one, orphaned iff there are no declared artifacts cluster-wide or
no pod with the watcher-name pattern `kyverno-artifact-manager-` at the
start of its name is in a non-terminal phase; with no `policy-version`
label, never orphaned. -/
def claimOrphaned (policy : PolicyInfo) (cs : ClusterState) : Bool :=
  match labelGet policy.labels "policy-version" with
  | none => false
  | some _ =>
    match labelGet policy.labels "artifact-name" with
    | none =>
      !(cs.artifacts.any (fun _ => true))
        || !(cs.pods.any (fun p =>
              goHasPre p.name "kyverno-artifact-manager-"
                && (p.phase == Phase.running || p.phase == Phase.pending)))
    | some artifactName =>
      !(cs.artifacts.any (fun a => a == artifactName))
        || !(cs.pods.any (fun p =>
              p.name == "kyverno-artifact-manager-" ++ artifactName
                && (p.phase == Phase.running || p.phase == Phase.pending)))

/-- Amended orphan predicate: the claim with name matching corrected to
the code's name-pattern test in the specific branch, and the legacy branch
restricted to pods carrying the label `app=kyverno-artifact-manager`. -/
def amendedOrphaned (policy : PolicyInfo) (cs : ClusterState) : Bool :=
  match labelGet policy.labels "policy-version" with
  | none => false
  | some _ =>
    match labelGet policy.labels "artifact-name" with
    | none =>
      !(checkForKyvernoArtifacts cs.artifacts)
        || !((cs.pods.filter
              (fun p => labelGet p.labels "app" == some "kyverno-artifact-manager")).any
              (fun p =>
                goHasPre p.name "kyverno-artifact-manager-"
                  && (p.phase == Phase.running || p.phase == Phase.pending)))
    | some artifactName =>
      !(cs.artifacts.any (fun a => a == artifactName))
        || !(cs.pods.any (fun p =>
              goHasPre p.name ("kyverno-artifact-manager-" ++ artifactName)
                && (p.phase == Phase.running || p.phase == Phase.pending)))

/-- gc.go lines 113-119. -/
def getPolicyKey (policy : PolicyInfo) : String :=
  if policy.ns != "" then policy.kind ++ "/" ++ policy.ns ++ "/" ++ policy.name
  else policy.kind ++ "/" ++ policy.name

/-- The `orphanedPolicies` map (`map[string]time.Time`), as an association
list from policy key to first-seen timestamp. -/
def OrphanMap := List (String × Nat)

def orphanMapHas (m : OrphanMap) (k : String) : Bool :=
  (List.find? (fun e => e.1 == k) m).isSome

def orphanMapInsert (m : OrphanMap) (k : String) (t : Nat) : OrphanMap :=
  List.append m [(k, t)]

def orphanMapErase (m : OrphanMap) (k : String) : OrphanMap :=
  List.filter (fun e => !(e.1 == k)) m

/-- The body of `collectGarbage`'s per-policy loop (gc.go lines 58-102),
threading the grace map and accumulating the policies deleted this cycle.
The mid-loop re-check of `isOrphaned` uses the same cluster snapshot, and
`deletePolicy` is modelled as always succeeding. -/
def processPolicy (cs : ClusterState) (now : Nat)
    (st : OrphanMap × List PolicyInfo) (policy : PolicyInfo) :
    OrphanMap × List PolicyInfo :=
  let m := st.1
  let deleted := st.2
  let key := getPolicyKey policy
  if isOrphaned policy cs then
    if !orphanMapHas m key then
      (orphanMapInsert m key now, deleted)
    else
      if !isOrphaned policy cs then (orphanMapErase m key, deleted)
      else (orphanMapErase m key, deleted ++ [policy])
  else
    if orphanMapHas m key then (orphanMapErase m key, deleted)
    else (m, deleted)

/-- One GC cycle over the listed managed policies (gc.go lines 41-111). -/
def collectGarbage (cs : ClusterState) (now : Nat) (m : OrphanMap)
    (policies : List PolicyInfo) : OrphanMap × List PolicyInfo :=
  policies.foldl (processPolicy cs now) (m, [])

/-! ### Concrete inputs used by witnesses. -/

/-- A cycle environment where nothing interesting happens. -/
def envQuiet : WEnv :=
  { tagChangedR := Except.ok (false, "", "")
    clientsR := Except.ok ()
    pullR := Except.ok []
    checksumR := (false, [])
    applyR := Except.ok () }

/-- A stand-in hex digest for witnesses (the checksum logic is proved for
every digest function). -/
def hashEx : List Nat → String := fun bs =>
  String.mk (List.replicate 60 'e') ++ toString bs.length

/-- A parsed object with one pre-existing label and a `spec` subtree. -/
def objEx : PObj := PObj.mk [("team", "x")] (some [1, 2])

/-- A YAML file that parses to `objEx`. -/
def fEx : YFile := YFile.mk [7] (some objEx)

/-- A polling-mode environment that observes the new tag `v2` and pulls
one file. -/
def envNewTag : WEnv :=
  { tagChangedR := Except.ok (true, "v2", "")
    clientsR := Except.ok ()
    pullR := Except.ok [("f1", "c1")]
    checksumR := (false, [])
    applyR := Except.ok () }

/-! ## Helper lemmas -/

theorem goSplit_ne_nil (sep : Char) (l : List Char) : goSplit sep l ≠ [] := by
  cases l with
  | nil => simp [goSplit]
  | cons c cs =>
    simp only [goSplit]
    split
    · simp
    · split
      · simp
      · simp

theorem goSplit_no_sep (sep : Char) (l : List Char) (h : sep ∉ l) :
    goSplit sep l = [l] := by
  induction l with
  | nil => rfl
  | cons c cs ih =>
    have hc : c ≠ sep := fun hcc => h (hcc ▸ List.mem_cons_self c cs)
    have hcs : sep ∉ cs := fun hm => h (List.mem_cons_of_mem c hm)
    simp only [goSplit, if_neg hc, ih hcs]

theorem goSplit_two_le_of_mem (sep : Char) (l : List Char) (h : sep ∈ l) :
    2 ≤ (goSplit sep l).length := by
  induction l with
  | nil => cases h
  | cons c cs ih =>
    simp only [goSplit]
    by_cases hc : c = sep
    · simp only [if_pos hc, List.length_cons]
      have : 1 ≤ (goSplit sep cs).length := by
        cases hcs : goSplit sep cs with
        | nil => exact absurd hcs (goSplit_ne_nil sep cs)
        | cons a as => simp
      omega
    · have hm : sep ∈ cs := by
        cases h with
        | head => exact absurd rfl hc
        | tail _ hmem => exact hmem
      simp only [if_neg hc]
      cases hcs : goSplit sep cs with
      | nil => exact absurd hcs (goSplit_ne_nil sep cs)
      | cons a as =>
        have := ih hm
        rw [hcs] at this
        simpa using this

theorem takeWhile_append_of_all {α : Type} (p : α → Bool) (xs ys : List α)
    (h : xs.all p) : (xs ++ ys).takeWhile p = xs ++ ys.takeWhile p := by
  induction xs with
  | nil => simp
  | cons x xs ih =>
    have hx : p x = true := by
      have := h
      simp [List.all_cons] at this
      exact this.1
    have hxs : xs.all p := by
      have := h
      simp [List.all_cons] at this
      exact List.all_eq_true.mpr (fun a ha => this.2 a ha)
    simp [List.takeWhile_cons, hx, ih hxs]

theorem takeWhile_append_of_not_all {α : Type} (p : α → Bool) (xs ys : List α)
    (h : ¬ xs.all p) : (xs ++ ys).takeWhile p = xs.takeWhile p := by
  induction xs with
  | nil => simp at h
  | cons x xs ih =>
    by_cases hx : p x = true
    · have hxs : ¬ xs.all p := by
        intro hall
        exact h (by simp [List.all_cons, hx, hall])
      simp [List.takeWhile_cons, hx, ih hxs]
    · have hx' : p x = false := by
        cases hpx : p x with
        | false => rfl
        | true => exact absurd hpx hx
      simp [List.takeWhile_cons, hx']

theorem takeWhile_eq_self_of_all {α : Type} (p : α → Bool) (xs : List α)
    (h : xs.all p) : xs.takeWhile p = xs := by
  induction xs with
  | nil => rfl
  | cons x xs ih =>
    have hx : p x = true := by
      have := h; simp [List.all_cons] at this; exact this.1
    have hxs : xs.all p := by
      have := h; simp [List.all_cons] at this
      exact List.all_eq_true.mpr (fun a ha => this.2 a ha)
    simp [List.takeWhile_cons, hx, ih hxs]

theorem getLastD_of_ne_nil {α : Type} (l : List α) (d₁ d₂ : α) (h : l ≠ []) :
    l.getLastD d₁ = l.getLastD d₂ := by
  cases l with
  | nil => exact absurd rfl h
  | cons a as => rw [List.getLastD_cons, List.getLastD_cons]

/-- Key fact about `goSplit`: the last component of the split is the
(reversed) longest suffix free of the separator, i.e. "everything after
the last occurrence of the separator" (or the whole string when the
separator does not occur). -/
theorem goSplit_getLastD (sep : Char) (l : List Char) :
    (goSplit sep l).getLastD [] =
      (l.reverse.takeWhile (fun c => !(c == sep))).reverse := by
  induction l with
  | nil => rfl
  | cons c cs ih =>
    by_cases hc : c = sep
    · subst hc
      simp only [goSplit, eq_self_iff_true, if_true]
      rw [List.getLastD_cons]
      have hne := goSplit_ne_nil c cs
      rw [getLastD_of_ne_nil (goSplit c cs) ([] : List Char) ([] : List Char) hne] at ih
      rw [getLastD_of_ne_nil (goSplit c cs) ([] : List Char) ([] : List Char) hne]
      rw [ih]
      have hstep : ((c :: cs).reverse.takeWhile (fun x => !(x == c))).reverse
          = (cs.reverse.takeWhile (fun x => !(x == c))).reverse := by
        have hr : (c :: cs).reverse = cs.reverse ++ [c] := by simp
        rw [hr]
        by_cases hall : cs.reverse.all (fun x => !(x == c))
        · rw [takeWhile_append_of_all _ _ _ hall]
          have h1 : ([c].takeWhile (fun x => !(x == c))) = [] := by simp
          rw [h1, List.append_nil, takeWhile_eq_self_of_all _ _ hall]
        · rw [takeWhile_append_of_not_all _ _ _ hall]
      rw [hstep]
    · have hrev : (c :: cs).reverse = cs.reverse ++ [c] := by simp
      by_cases hm : sep ∈ cs
      · -- the separator still occurs later: the last component is that of cs
        have hlen := goSplit_two_le_of_mem sep cs hm
        simp only [goSplit, if_neg hc]
        cases hcs : goSplit sep cs with
        | nil => exact absurd hcs (goSplit_ne_nil sep cs)
        | cons h t =>
          rw [hcs] at hlen
          cases t with
          | nil => simp at hlen
          | cons t0 ts =>
            have hl : ((c :: h) :: t0 :: ts).getLastD [] = (h :: t0 :: ts).getLastD [] := by
              simp [List.getLastD_cons]
            rw [hl, ← hcs, ih]
            have hnotall : ¬ cs.reverse.all (fun x => !(x == sep)) := by
              intro hall
              have := List.all_eq_true.mp hall sep (by simpa using hm)
              simp at this
            rw [hrev, takeWhile_append_of_not_all _ _ _ hnotall]
      · -- no separator in the rest: the whole string is the last component
        have hnot : sep ∉ c :: cs := by
          intro hmem
          cases hmem with
          | head => exact hc rfl
          | tail _ hmem => exact hm hmem
        rw [goSplit_no_sep sep (c :: cs) hnot]
        have hall : (c :: cs).reverse.all (fun x => !(x == sep)) := by
          apply List.all_eq_true.mpr
          intro a ha
          have hmem : a ∈ c :: cs := List.mem_reverse.mp ha
          have hane : a ≠ sep := fun h => hnot (h ▸ hmem)
          simp [hane]
        rw [takeWhile_eq_self_of_all _ _ hall]
        simp

theorem labelGet_setLabel_same (ls : List (String × String)) (k v : String) :
    labelGet (setLabel ls k v) k = some v := by
  induction ls with
  | nil => simp [setLabel, labelGet, List.find?]
  | cons e t ih =>
    by_cases he : e.1 == k
    · simp [setLabel, he, labelGet, List.find?]
    · have he' : (e.1 == k) = false := by
        cases h : e.1 == k with
        | false => rfl
        | true => exact absurd h he
      simp only [setLabel, he', Bool.false_eq_true, if_false]
      simp only [labelGet, List.find?, he'] at ih ⊢
      exact ih

theorem labelGet_setLabel_other (ls : List (String × String)) (k v k2 : String)
    (h : k2 ≠ k) : labelGet (setLabel ls k v) k2 = labelGet ls k2 := by
  induction ls with
  | nil =>
    have : (k == k2) = false := by
      cases hkk : k == k2 with
      | false => rfl
      | true => exact absurd (eq_of_beq hkk).symm h
    simp [setLabel, labelGet, List.find?, this]
  | cons e t ih =>
    by_cases he : e.1 == k
    · have hk1 : e.1 = k := by simpa using he
      have hne : (k == k2) = false := by
        cases hkk : k == k2 with
        | false => rfl
        | true => exact absurd (eq_of_beq hkk).symm h
      have hne2 : (e.1 == k2) = false := by
        rw [hk1]; exact hne
      simp [setLabel, he, labelGet, List.find?, hne, hne2]
    · have he' : (e.1 == k) = false := by
        cases hh : e.1 == k with
        | false => rfl
        | true => exact absurd hh he
      simp only [setLabel, he', Bool.false_eq_true, if_false]
      by_cases he2 : e.1 == k2
      · simp [labelGet, List.find?, he2]
      · have he2' : (e.1 == k2) = false := by
          cases hh : e.1 == k2 with
          | false => rfl
          | true => exact absurd hh he2
        simp only [labelGet, List.find?, he2'] at ih ⊢
        exact ih

/-- The three shapes an `ok` result of `watchLoopAfterTag` can take:
early return, pull with nothing to apply, or pull + per-file applies
followed by exactly one write of the latest tag. -/
theorem watchLoopAfterTag_shapes (cfg : WConfig) (env : WEnv)
    (lf : Option String) (c : Bool) (l : String)
    (r : Option String × List WAction)
    (h : watchLoopAfterTag cfg env lf c l = Except.ok r) :
    r = (lf, ([] : List WAction)) ∨ r = (lf, [WAction.pullA l]) ∨
      ∃ fs : List String, r = (some l,
        WAction.pullA l :: (fs.map WAction.applyFileA ++ [WAction.writeLastA l])) := by
  cases c with
  | true =>
    cases hcl : env.clientsR with
    | error e =>
      have hv : watchLoopAfterTag cfg env lf true l
          = Except.error ("failed to get Kubernetes clients: " ++ e) := by
        simp [watchLoopAfterTag, hcl]
      rw [hv] at h
      exact Except.noConfusion h
    | ok u =>
      cases hp : env.pullR with
      | error e =>
        have hv : watchLoopAfterTag cfg env lf true l
            = Except.error ("pull failed: " ++ e) := by
          simp [watchLoopAfterTag, hcl, hp]
        rw [hv] at h
        exact Except.noConfusion h
      | ok ncs =>
        cases ha : env.applyR with
        | error e =>
          have hv : watchLoopAfterTag cfg env lf true l
              = Except.error ("apply manifests failed: " ++ e) := by
            simp [watchLoopAfterTag, hcl, hp, ha]
          rw [hv] at h
          exact Except.noConfusion h
        | ok v =>
          have hv : watchLoopAfterTag cfg env lf true l
              = Except.ok (some l, WAction.pullA l ::
                  ((ncs.map (fun kv => kv.1)).map WAction.applyFileA
                    ++ [WAction.writeLastA l])) := by
            simp [watchLoopAfterTag, hcl, hp, ha]
          rw [hv] at h
          injection h with h2
          exact Or.inr (Or.inr ⟨ncs.map (fun kv => kv.1), h2.symm⟩)
  | false =>
    cases hrec : cfg.reconcilePoliciesFromChecksum with
    | false =>
      have hv : watchLoopAfterTag cfg env lf false l = Except.ok (lf, []) := by
        simp [watchLoopAfterTag, hrec]
      rw [hv] at h
      injection h with h2
      exact Or.inl h2.symm
    | true =>
      cases hcl : env.clientsR with
      | error e =>
        have hv : watchLoopAfterTag cfg env lf false l
            = Except.error ("failed to get Kubernetes clients: " ++ e) := by
          simp [watchLoopAfterTag, hrec, hcl]
        rw [hv] at h
        exact Except.noConfusion h
      | ok u =>
        cases hp : env.pullR with
        | error e =>
          have hv : watchLoopAfterTag cfg env lf false l
              = Except.error ("pull failed: " ++ e) := by
            simp [watchLoopAfterTag, hrec, hcl, hp]
          rw [hv] at h
          exact Except.noConfusion h
        | ok ncs =>
          cases hch : env.checksumR.1 with
          | false =>
            have hv : watchLoopAfterTag cfg env lf false l
                = Except.ok (lf, [WAction.pullA l]) := by
              simp [watchLoopAfterTag, hrec, hcl, hp, hch]
            rw [hv] at h
            injection h with h2
            exact Or.inr (Or.inl h2.symm)
          | true =>
            cases ha : env.applyR with
            | error e =>
              have hv : watchLoopAfterTag cfg env lf false l
                  = Except.error ("apply manifests failed: " ++ e) := by
                simp [watchLoopAfterTag, hrec, hcl, hp, hch, ha]
              rw [hv] at h
              exact Except.noConfusion h
            | ok v =>
              have hv : watchLoopAfterTag cfg env lf false l
                  = Except.ok (some l, WAction.pullA l ::
                      (env.checksumR.2.map WAction.applyFileA
                        ++ [WAction.writeLastA l])) := by
                simp [watchLoopAfterTag, hrec, hcl, hp, hch, ha]
              rw [hv] at h
              injection h with h2
              exact Or.inr (Or.inr ⟨env.checksumR.2, h2.symm⟩)

/-- No-change early return: when the tag did not change and checksum
reconciliation is disabled, the cycle stops before contacting the
cluster (part_005 lines 331-336). -/
theorem watchLoopAfterTag_noop (cfg : WConfig) (env : WEnv)
    (lf : Option String) (l : String)
    (hrec : cfg.reconcilePoliciesFromChecksum = false) :
    watchLoopAfterTag cfg env lf false l = Except.ok (lf, []) := by
  unfold watchLoopAfterTag
  rw [hrec]
  simp

/-- The fold inside `pickLatest` returns either its seed or a list
element, and its `updatedAt` dominates the seed and every element. -/
theorem pickLatest_fold_spec (vs : List GitHubPackageVersion)
    (acc : GitHubPackageVersion) :
    (pickLatest acc vs = acc ∨ pickLatest acc vs ∈ vs)
      ∧ acc.updatedAt ≤ (pickLatest acc vs).updatedAt
      ∧ ∀ w ∈ vs, w.updatedAt ≤ (pickLatest acc vs).updatedAt := by
  induction vs generalizing acc with
  | nil => exact ⟨Or.inl rfl, le_refl _, fun w hw => absurd hw (List.not_mem_nil w)⟩
  | cons v t ih =>
    have hstep : pickLatest acc (v :: t)
        = pickLatest (if acc.updatedAt < v.updatedAt then v else acc) t := rfl
    by_cases hlt : acc.updatedAt < v.updatedAt
    · have h := ih v
      rw [hstep, if_pos hlt]
      refine ⟨?_, ?_, ?_⟩
      · rcases h.1 with h1 | h1
        · exact Or.inr (by rw [h1]; exact List.mem_cons_self v t)
        · exact Or.inr (List.mem_cons_of_mem v h1)
      · exact le_trans (le_of_lt hlt) h.2.1
      · intro w hw
        rcases List.mem_cons.mp hw with hw1 | hw1
        · exact hw1 ▸ h.2.1
        · exact h.2.2 w hw1
    · have h := ih acc
      rw [hstep, if_neg hlt]
      refine ⟨?_, h.2.1, ?_⟩
      · rcases h.1 with h1 | h1
        · exact Or.inl h1
        · exact Or.inr (List.mem_cons_of_mem v h1)
      · intro w hw
        rcases List.mem_cons.mp hw with hw1 | hw1
        · exact hw1 ▸ le_trans (le_of_not_lt hlt) h.2.1
        · exact h.2.2 w hw1

/-- Each reconciler step either keeps the accumulator or appends the
current file while setting the changed flag. -/
theorem checksumStep_cases (hash : List Nat → String) (fenv : String → FileEnv)
    (acc : Bool × List String) (entry : String × String) :
    checksumStep hash fenv acc entry = acc
      ∨ checksumStep hash fenv acc entry = (true, acc.2 ++ [entry.1]) := by
  dsimp only [checksumStep]
  split
  · exact Or.inl rfl
  · split
    · exact Or.inl rfl
    · split
      · split
        · exact Or.inr rfl
        · exact Or.inl rfl
      · exact Or.inr rfl
      · split
        · exact Or.inr rfl
        · exact Or.inl rfl

/-- The changed flag of the reconciler fold is set exactly when the
accumulated file list is non-empty (given the invariant on the seed). -/
theorem checksum_foldl_invariant (hash : List Nat → String)
    (fenv : String → FileEnv) (entries : List (String × String))
    (acc : Bool × List String) (hinv : acc.1 = true ↔ acc.2 ≠ []) :
    (entries.foldl (checksumStep hash fenv) acc).1 = true
      ↔ (entries.foldl (checksumStep hash fenv) acc).2 ≠ [] := by
  induction entries generalizing acc with
  | nil => exact hinv
  | cons e t ih =>
    have hfold : (e :: t).foldl (checksumStep hash fenv) acc
        = t.foldl (checksumStep hash fenv) (checksumStep hash fenv acc e) := rfl
    rw [hfold]
    apply ih
    rcases checksumStep_cases hash fenv acc e with hc | hc
    · rw [hc]; exact hinv
    · rw [hc]
      constructor
      · intro _
        simp
      · intro _
        rfl

/-- Erasing an absent key from the orphan map leaves it unchanged. -/
theorem orphanMapErase_of_not_has (m : OrphanMap) (k : String)
    (h : orphanMapHas m k = false) : orphanMapErase m k = m := by
  induction m with
  | nil => rfl
  | cons e t ih =>
    unfold orphanMapHas at h ih
    unfold orphanMapErase at ih ⊢
    rw [List.find?] at h
    cases he : e.1 == k with
    | true => rw [he] at h; simp at h
    | false =>
      rw [he] at h
      simp only [List.filter, he, Bool.not_false]
      rw [ih h]

/-- Closed form of `processManifest` on a file that parses. -/
theorem processManifest_eq (hash : List Nat → String) (cfg : PullConfig)
    (tag : String) (f : YFile) (obj : PObj) (hparse : f.parsed = some obj) :
    processManifest hash cfg tag f = some (
      (fileFingerprint hash f obj).take 48,
      PObj.mk
        (stampLabels cfg tag ((fileFingerprint hash f obj).take 48) obj.labels)
        obj.specJson) := by
  unfold processManifest
  rw [hparse]

/-- The label map produced by `stampLabels`: the three fixed labels are
present, `artifact-name` is set exactly when the configured artifact name
is non-empty (otherwise untouched), and all other keys are preserved by
construction. -/
theorem stampLabels_spec (cfg : PullConfig) (tag ck : String)
    (ls : List (String × String)) :
    labelGet (stampLabels cfg tag ck ls) "managed-by" = some "kyverno-watcher"
    ∧ labelGet (stampLabels cfg tag ck ls) "policy-version" = some tag
    ∧ (cfg.artifactName ≠ "" →
        labelGet (stampLabels cfg tag ck ls) "artifact-name" = some cfg.artifactName)
    ∧ (cfg.artifactName = "" →
        labelGet (stampLabels cfg tag ck ls) "artifact-name" = labelGet ls "artifact-name")
    ∧ labelGet (stampLabels cfg tag ck ls) "policy-checksum" = some ck := by
  dsimp only [stampLabels]
  by_cases han : cfg.artifactName = ""
  · have hb : ¬ ((cfg.artifactName != "") = true) := by simp [han]
    rw [if_neg hb]
    refine ⟨?_, ?_, ?_, ?_, ?_⟩
    · rw [labelGet_setLabel_other _ _ _ _ (by decide),
        labelGet_setLabel_other _ _ _ _ (by decide), labelGet_setLabel_same]
    · rw [labelGet_setLabel_other _ _ _ _ (by decide), labelGet_setLabel_same]
    · intro h
      exact absurd han h
    · intro _
      rw [labelGet_setLabel_other _ _ _ _ (by decide),
        labelGet_setLabel_other _ _ _ _ (by decide),
        labelGet_setLabel_other _ _ _ _ (by decide)]
    · rw [labelGet_setLabel_same]
  · have hb : (cfg.artifactName != "") = true := by simp [han]
    rw [if_pos hb]
    refine ⟨?_, ?_, ?_, ?_, ?_⟩
    · rw [labelGet_setLabel_other _ _ _ _ (by decide),
        labelGet_setLabel_other _ _ _ _ (by decide),
        labelGet_setLabel_other _ _ _ _ (by decide), labelGet_setLabel_same]
    · rw [labelGet_setLabel_other _ _ _ _ (by decide),
        labelGet_setLabel_other _ _ _ _ (by decide), labelGet_setLabel_same]
    · intro _
      rw [labelGet_setLabel_other _ _ _ _ (by decide), labelGet_setLabel_same]
    · intro h
      exact absurd h han
    · rw [labelGet_setLabel_same]

/-! ## Claim theorems -/

/-- C3: in pinned mode (`pollForTagChanges` false) the worker extracts the
tag as everything after the last `:` of the URL exactly when that suffix
contains no `/`; with no extracted tag the cycle does nothing; the change
predicate is `isChanged = (latest ≠ previous) ∧ (previous ≠ "")`; and with
an absent or empty last-applied file `isChanged` is never true, so (with
checksum reconciliation disabled) the cycle does nothing. -/
theorem pinned_mode_tag_extraction (u : String) (cfg : WConfig) (env : WEnv)
    (lf : Option String) (hpoll : cfg.pollForTagChanges = false) :
    (u.data.contains ':' = true →
       extractPinnedTag u =
         if (afterLastColon u).data.contains '/' then none
         else some (afterLastColon u))
    ∧ (u.data.contains ':' = false → extractPinnedTag u = none)
    ∧ (extractPinnedTag cfg.imageBase = none →
        watchLoop cfg env lf = Except.ok (lf, []))
    ∧ (∀ latest prev, pinnedIsChanged latest prev = true ↔ (latest ≠ prev ∧ prev ≠ ""))
    ∧ (∀ latest, pinnedIsChanged latest "" = false)
    ∧ (cfg.reconcilePoliciesFromChecksum = false → (lf = none ∨ lf = some "") →
        watchLoop cfg env lf = Except.ok (lf, [])) := by
  refine ⟨?_, ?_, ?_, ?_, ?_, ?_⟩
  · intro h
    simp only [extractPinnedTag, h, if_true, afterLastColon, goSplit_getLastD]
  · intro h
    simp only [extractPinnedTag, h, Bool.false_eq_true, if_false]
  · intro hnone
    simp [watchLoop, hpoll, hnone]
  · intro latest prev
    simp [pinnedIsChanged]
  · intro latest
    simp [pinnedIsChanged]
  · intro hrec hlf
    cases hext : extractPinnedTag cfg.imageBase with
    | none => simp [watchLoop, hpoll, hext]
    | some t =>
      have hprev : lf.getD "" = "" := by
        rcases hlf with h | h <;> simp [h]
      have hch : pinnedIsChanged t (lf.getD "") = false := by
        rw [hprev]
        simp [pinnedIsChanged]
      simp only [watchLoop, hpoll, Bool.false_eq_true, if_false, hext, hch]
      exact watchLoopAfterTag_noop cfg env lf t hrec

/-- Witness for `pinned_mode_tag_extraction` at concrete inputs. -/
theorem pinned_mode_tag_extraction_witness :
    extractPinnedTag "ghcr.io/acme/pol:v1" = some "v1" ∧
    watchLoop ⟨false, false, "ghcr.io/acme/pol:v1"⟩ envQuiet none = Except.ok (none, []) := by
  have h := pinned_mode_tag_extraction "ghcr.io/acme/pol:v1"
    ⟨false, false, "ghcr.io/acme/pol:v1"⟩ envQuiet none rfl
  constructor
  · have h1 := h.1 (by decide)
    rw [h1]
    decide
  · exact h.2.2.2.2.2 rfl (Or.inl rfl)

/-- C2: when anything was applied during a cycle, the trace is a pull
followed by the per-file applies and then exactly one terminating write of
the applied tag to the last-applied-tag file, whose content afterwards is
exactly that tag; a cycle with no write leaves the file as it was; and a
cycle with no tag change and checksum reconciliation disabled returns
early with an empty trace and an untouched file. -/
theorem watchLoop_last_file_contract (cfg : WConfig) (env : WEnv)
    (lf lf2 : Option String) (tr : List WAction)
    (hok : watchLoop cfg env lf = Except.ok (lf2, tr)) :
    ((∃ f, WAction.applyFileA f ∈ tr) →
       ∃ t fs, tr = WAction.pullA t ::
           (List.map WAction.applyFileA fs ++ [WAction.writeLastA t])
         ∧ lf2 = some t)
    ∧ ((∀ t, WAction.writeLastA t ∉ tr) → lf2 = lf)
    ∧ (cfg.reconcilePoliciesFromChecksum = false →
        ∀ l p, env.tagChangedR = Except.ok (false, l, p) →
          cfg.pollForTagChanges = true → (lf2, tr) = (lf, [])) := by
  have hshape : (lf2, tr) = (lf, ([] : List WAction))
      ∨ (∃ l, (lf2, tr) = (lf, [WAction.pullA l]))
      ∨ ∃ l fs, (lf2, tr) = (some l, WAction.pullA l ::
          (List.map WAction.applyFileA fs ++ [WAction.writeLastA l])) := by
    unfold watchLoop at hok
    split at hok
    · cases htag : env.tagChangedR with
      | error e => rw [htag] at hok; exact Except.noConfusion hok
      | ok v =>
        rw [htag] at hok
        obtain ⟨c, l, p⟩ := v
        rcases watchLoopAfterTag_shapes cfg env lf c l (lf2, tr) hok with
          h | h | ⟨fs, h⟩
        · exact Or.inl h
        · exact Or.inr (Or.inl ⟨l, h⟩)
        · exact Or.inr (Or.inr ⟨l, fs, h⟩)
    · cases hext : extractPinnedTag cfg.imageBase with
      | none =>
        rw [hext] at hok
        injection hok with h2
        exact Or.inl h2.symm
      | some t =>
        rw [hext] at hok
        rcases watchLoopAfterTag_shapes cfg env lf
            (pinnedIsChanged t (lf.getD "")) t (lf2, tr) hok with h | h | ⟨fs, h⟩
        · exact Or.inl h
        · exact Or.inr (Or.inl ⟨t, h⟩)
        · exact Or.inr (Or.inr ⟨t, fs, h⟩)
  refine ⟨?_, ?_, ?_⟩
  · intro happ
    rcases hshape with h | ⟨l, h⟩ | ⟨l, fs, h⟩
    · obtain ⟨f, hf⟩ := happ
      rw [Prod.mk.injEq] at h
      rw [h.2] at hf
      cases hf
    · obtain ⟨f, hf⟩ := happ
      rw [Prod.mk.injEq] at h
      rw [h.2] at hf
      rcases List.mem_singleton.mp hf with h3
      exact WAction.noConfusion h3
    · rw [Prod.mk.injEq] at h
      exact ⟨l, fs, h.2, h.1⟩
  · intro hnow
    rcases hshape with h | ⟨l, h⟩ | ⟨l, fs, h⟩
    · rw [Prod.mk.injEq] at h
      exact h.1
    · rw [Prod.mk.injEq] at h
      exact h.1
    · rw [Prod.mk.injEq] at h
      exfalso
      apply hnow l
      rw [h.2]
      exact List.mem_cons_of_mem _ (List.mem_append_right _ (List.mem_singleton.mpr rfl))
  · intro hrec l p htag hpoll
    have : watchLoop cfg env lf = Except.ok (lf, []) := by
      unfold watchLoop
      rw [hpoll, if_pos rfl, htag]
      exact watchLoopAfterTag_noop cfg env lf l hrec
    rw [this] at hok
    injection hok with h2
    exact h2.symm

/-- Witness for `watchLoop_last_file_contract`: one polling-mode cycle
that observes tag `v2`, pulls one file, applies it and bookmarks `v2`. -/
theorem watchLoop_last_file_contract_witness :
    ∃ t fs, [WAction.pullA "v2", WAction.applyFileA "f1", WAction.writeLastA "v2"]
        = WAction.pullA t ::
            (List.map WAction.applyFileA fs ++ [WAction.writeLastA t])
      ∧ (some "v2" : Option String) = some t := by
  have h := watchLoop_last_file_contract ⟨true, false, "b"⟩ envNewTag none (some "v2")
    [WAction.pullA "v2", WAction.applyFileA "f1", WAction.writeLastA "v2"] rfl
  exact h.1 ⟨"f1", by simp⟩

/-- C1: for every YAML file found in the pull destination directory that
parses, the pull pipeline records in its result map, and stamps as the
file's `policy-checksum` label, the first 48 characters of the hex digest
of the JSON encoding of the `spec` subtree when present and of the whole
file bytes when `spec` is absent; it merges `managed-by=kyverno-watcher`,
`policy-version=<tag>` and, exactly when the artifact name is non-empty,
`artifact-name=<artifactName>`, then rewrites the file with the new
labels (the rest of the object unchanged). -/
theorem pull_pipeline_fingerprint_and_labels (hash : List Nat → String)
    (cfg : PullConfig) (tag path : String) (f : YFile) (obj : PObj)
    (files : List (String × YFile))
    (hparse : f.parsed = some obj) (hmem : (path, f) ∈ files) :
    ∃ ck obj2, processManifest hash cfg tag f = some (ck, obj2)
      ∧ ck = (fileFingerprint hash f obj).take 48
      ∧ (obj.specJson = none → ck = (hash f.raw).take 48)
      ∧ (∀ s, obj.specJson = some s → ck = (hash s).take 48)
      ∧ labelGet obj2.labels "managed-by" = some "kyverno-watcher"
      ∧ labelGet obj2.labels "policy-version" = some tag
      ∧ (cfg.artifactName ≠ "" →
          labelGet obj2.labels "artifact-name" = some cfg.artifactName)
      ∧ (cfg.artifactName = "" →
          labelGet obj2.labels "artifact-name" = labelGet obj.labels "artifact-name")
      ∧ labelGet obj2.labels "policy-checksum" = some ck
      ∧ obj2.specJson = obj.specJson
      ∧ (path, ck) ∈ pullProcess hash cfg tag files := by
  have hspec := stampLabels_spec cfg tag ((fileFingerprint hash f obj).take 48) obj.labels
  refine ⟨(fileFingerprint hash f obj).take 48,
    PObj.mk (stampLabels cfg tag ((fileFingerprint hash f obj).take 48) obj.labels)
      obj.specJson,
    processManifest_eq hash cfg tag f obj hparse, rfl, ?_, ?_,
    hspec.1, hspec.2.1, hspec.2.2.1, hspec.2.2.2.1, hspec.2.2.2.2, rfl, ?_⟩
  · intro h
    simp [fileFingerprint, h]
  · intro s h
    simp [fileFingerprint, h]
  · unfold pullProcess
    apply List.mem_filterMap.mpr
    exact ⟨(path, f), hmem, by simp [processManifest_eq hash cfg tag f obj hparse]⟩

/-- Witness for `pull_pipeline_fingerprint_and_labels` at a concrete file,
artifact name and digest function. -/
theorem pull_pipeline_fingerprint_and_labels_witness :
    ∃ ck obj2, processManifest hashEx ⟨"alpha"⟩ "v1" fEx = some (ck, obj2)
      ∧ labelGet obj2.labels "policy-checksum" = some ck
      ∧ ("p.yaml", ck) ∈ pullProcess hashEx ⟨"alpha"⟩ "v1" [("p.yaml", fEx)] := by
  obtain ⟨ck, obj2, h1, _h2, _h3, _h4, _h5, _h6, _h7, _h8, h9, _h10, h11⟩ :=
    pull_pipeline_fingerprint_and_labels hashEx ⟨"alpha"⟩ "v1" "p.yaml" fEx objEx
      [("p.yaml", fEx)] rfl (by simp)
  exact ⟨ck, obj2, h1, h9, h11⟩

/-- C4: applying a single parsed object first resolves its mapping and
performs a Get on the (scope-stripped) object; not-found leads to a
Create of that object, found leads to an Update at the fetched
resourceVersion, and any other Get error is propagated as an error, so no
create or update is performed. -/
theorem apply_resource_get_create_update (m : RESTMap) (get : KObj → GetRes)
    (obj stripped : KObj)
    (hstr : stripped = if !m.namespaced && obj.ns != "" then { obj with ns := "" } else obj) :
    (get stripped = GetRes.notFound →
       applyResource (some m) get obj = Except.ok (ApplyOp.createOp stripped))
    ∧ (∀ rv, get stripped = GetRes.found rv →
       applyResource (some m) get obj
         = Except.ok (ApplyOp.updateOp { stripped with resourceVersion := rv }))
    ∧ (∀ e, get stripped = GetRes.errOther e →
       applyResource (some m) get obj
           = Except.error ("failed to get existing resource: " ++ e)
         ∧ ∀ op, applyResource (some m) get obj ≠ Except.ok op) := by
  subst hstr
  refine ⟨?_, ?_, ?_⟩
  · intro h
    unfold applyResource
    dsimp only
    rw [h]
  · intro rv h
    unfold applyResource
    dsimp only
    rw [h]
  · intro e h
    have hv : applyResource (some m) get obj
        = Except.error ("failed to get existing resource: " ++ e) := by
      unfold applyResource
      dsimp only
      rw [h]
    exact ⟨hv, fun op hop => Except.noConfusion (hv ▸ hop)⟩

/-- Witness for `apply_resource_get_create_update`: a namespaced object
that does not yet exist is created. -/
theorem apply_resource_get_create_update_witness :
    applyResource (some ⟨true⟩) (fun _ => GetRes.notFound) (KObj.mk "p" "d" "")
      = Except.ok (ApplyOp.createOp (KObj.mk "p" "d" "")) := by
  have h := apply_resource_get_create_update ⟨true⟩ (fun _ => GetRes.notFound)
    (KObj.mk "p" "d" "") (KObj.mk "p" "d" "") (by decide)
  exact h.1 rfl

/-- C5: for a declared artifact whose worker pod exists, has a container
and is not in a terminal phase, Reconcile deletes the pod exactly when one
of `IMAGE_BASE`, `POLL_INTERVAL`, `PROVIDER` or
`WATCHER_POLL_FOR_TAG_CHANGES_ENABLED` in the pod's environment differs
from the current projection of the declaration (an absent poll-for-tags
value counting as `"true"`, other absent values comparing as `""`), or
the container image differs from the configured watcher image; otherwise
it leaves the pod unchanged. -/
theorem controller_drift_detection (rc : RConfig) (s : ASpec) (pod : PodC)
    (c : ContainerC) (rest : List ContainerC)
    (hc : pod.containers = c :: rest)
    (h1 : pod.phase ≠ Phase.failed) (h2 : pod.phase ≠ Phase.succeeded) :
    (reconcileExistingPod rc s pod = ReconAction.deletePod ↔
      (envMapGet c.env "IMAGE_BASE" ≠ currentArtifactUrl s
        ∨ envMapGet c.env "POLL_INTERVAL" ≠ currentPollingInterval s
        ∨ envMapGet c.env "PROVIDER" ≠ currentProvider s
        ∨ podPollForTagChanges c.env ≠ currentPollForTagChanges s
        ∨ c.image ≠ rc.watcherImage))
    ∧ (reconcileExistingPod rc s pod ≠ ReconAction.deletePod →
        reconcileExistingPod rc s pod = ReconAction.noop) := by
  have hphase : (pod.phase == Phase.failed || pod.phase == Phase.succeeded) = false := by
    cases hp : pod.phase <;> simp_all
  have hneed : needsUpdate rc s pod =
      (envMapGet c.env "IMAGE_BASE" != currentArtifactUrl s
        || envMapGet c.env "POLL_INTERVAL" != currentPollingInterval s
        || envMapGet c.env "PROVIDER" != currentProvider s
        || podPollForTagChanges c.env != currentPollForTagChanges s
        || c.image != rc.watcherImage) := by
    unfold needsUpdate
    rw [hc]
  have hrec : reconcileExistingPod rc s pod
      = if needsUpdate rc s pod then ReconAction.deletePod else ReconAction.noop := by
    unfold reconcileExistingPod
    rw [hphase]
    simp
  have hiff : (envMapGet c.env "IMAGE_BASE" != currentArtifactUrl s
        || envMapGet c.env "POLL_INTERVAL" != currentPollingInterval s
        || envMapGet c.env "PROVIDER" != currentProvider s
        || podPollForTagChanges c.env != currentPollForTagChanges s
        || c.image != rc.watcherImage) = true ↔
      (envMapGet c.env "IMAGE_BASE" ≠ currentArtifactUrl s
        ∨ envMapGet c.env "POLL_INTERVAL" ≠ currentPollingInterval s
        ∨ envMapGet c.env "PROVIDER" ≠ currentProvider s
        ∨ podPollForTagChanges c.env ≠ currentPollForTagChanges s
        ∨ c.image ≠ rc.watcherImage) := by
    simp [or_assoc]
  rw [hrec, hneed]
  by_cases hb : (envMapGet c.env "IMAGE_BASE" != currentArtifactUrl s
        || envMapGet c.env "POLL_INTERVAL" != currentPollingInterval s
        || envMapGet c.env "PROVIDER" != currentProvider s
        || podPollForTagChanges c.env != currentPollForTagChanges s
        || c.image != rc.watcherImage) = true
  · rw [if_pos hb]
    refine ⟨⟨fun _ => hiff.mp hb, fun _ => rfl⟩, fun h => absurd rfl h⟩
  · rw [if_neg hb]
    refine ⟨⟨fun h => absurd h (by decide), fun hor => absurd (hiff.mpr hor) hb⟩,
      fun _ => rfl⟩

/-- Witness for `controller_drift_detection`: a running pod whose
container image differs from the configured watcher image is deleted. -/
theorem controller_drift_detection_witness :
    reconcileExistingPod ⟨"img:v2"⟩ (ASpec.mk (some "ghcr.io/a/b") none none none)
      (PodC.mk Phase.running [ContainerC.mk "img:v1" [("IMAGE_BASE", "ghcr.io/a/b")]])
      = ReconAction.deletePod := by
  have h := controller_drift_detection ⟨"img:v2"⟩
    (ASpec.mk (some "ghcr.io/a/b") none none none)
    (PodC.mk Phase.running [ContainerC.mk "img:v1" [("IMAGE_BASE", "ghcr.io/a/b")]])
    (ContainerC.mk "img:v1" [("IMAGE_BASE", "ghcr.io/a/b")]) [] rfl
    (by decide) (by decide)
  exact h.1.mpr (Or.inr (Or.inr (Or.inr (Or.inr (by decide)))))

/-- C6: for each entry of the pulled map whose file re-reads, re-parses
and resolves its mapping, the checksum reconciler adds the file to
`toApply` and marks changed exactly when the Get reports not-found, when
the existing object has no `spec`, or when the existing object's spec
fingerprint (same digest, same 48-character truncation) differs from the
pulled one; any other fetch error skips the file without marking
changed. -/
theorem checksum_reconciler_per_entry (hash : List Nat → String)
    (fenv : String → FileEnv) (acc : Bool × List String) (file ck : String)
    (hp : (fenv file).parsed = true) (hm : (fenv file).mapping = true) :
    (∀ msg, (fenv file).getRes = GetPolicyRes.err msg → errIsNotFound msg = true →
       checksumStep hash fenv acc (file, ck) = (true, acc.2 ++ [file]))
    ∧ ((fenv file).getRes = GetPolicyRes.found none →
       checksumStep hash fenv acc (file, ck) = (true, acc.2 ++ [file]))
    ∧ (∀ sj, (fenv file).getRes = GetPolicyRes.found (some sj) →
        ck ≠ (hash sj).take 48 →
        checksumStep hash fenv acc (file, ck) = (true, acc.2 ++ [file]))
    ∧ (∀ sj, (fenv file).getRes = GetPolicyRes.found (some sj) →
        ck = (hash sj).take 48 →
        checksumStep hash fenv acc (file, ck) = acc)
    ∧ (∀ msg, (fenv file).getRes = GetPolicyRes.err msg → errIsNotFound msg = false →
        checksumStep hash fenv acc (file, ck) = acc)
    ∧ (checksumsChanged hash fenv [(file, ck)]
        = ((checksumStep hash fenv (false, []) (file, ck)).1,
           (checksumStep hash fenv (false, []) (file, ck)).2, none)) := by
  refine ⟨?_, ?_, ?_, ?_, ?_, rfl⟩
  · intro msg hres hnf
    simp [checksumStep, hp, hm, hres, hnf]
  · intro hres
    simp [checksumStep, hp, hm, hres]
  · intro sj hres hne
    simp [checksumStep, hp, hm, hres, hne]
  · intro sj hres heq
    simp [checksumStep, hp, hm, hres, heq]
  · intro msg hres hnf
    simp [checksumStep, hp, hm, hres, hnf]

/-- Witness for `checksum_reconciler_per_entry`: an existing policy with
no `spec` field marks the file for re-application. -/
theorem checksum_reconciler_per_entry_witness :
    checksumStep hashEx (fun _ => FileEnv.mk true true (GetPolicyRes.found none))
      (false, []) ("p.yaml", "ck") = (true, ["p.yaml"]) := by
  have h := (checksum_reconciler_per_entry hashEx
    (fun _ => FileEnv.mk true true (GetPolicyRes.found none))
    (false, []) "p.yaml" "ck" rfl rfl).2.1 rfl
  simpa using h

/-- C10: for every input checksum map and per-file environment,
`checksumsChanged` reports changed exactly when its returned `toApply`
list is non-empty, and its error result is always nil. -/
theorem checksums_changed_flag_iff_nonempty (hash : List Nat → String)
    (fenv : String → FileEnv) (entries : List (String × String)) :
    (checksumsChanged hash fenv entries).2.2 = none
    ∧ ((checksumsChanged hash fenv entries).1 = true
        ↔ (checksumsChanged hash fenv entries).2.1 ≠ []) := by
  constructor
  · rfl
  · exact checksum_foldl_invariant hash fenv entries (false, []) (by simp)

/-- C7 counterexample: the claim's reading of the orphan predicate
(worker matched by its exact deterministic name; legacy scan over all
pods) disagrees with the code on concrete inputs.  First input: the
policy names artifact `a`, artifact `a` exists, and the only pod is the
running worker `kyverno-artifact-manager-ab` — the code matches by name
pattern and reports not orphaned, while the claim's exact-name reading
reports orphaned.  Second input: a policy with no `artifact-name` label,
one declared artifact, and a running pod `kyverno-artifact-manager-a`
that lacks the `app=kyverno-artifact-manager` label — the code's
label-selector scan sees no active watcher and reports orphaned, while
the claim reports not orphaned. -/
theorem gc_orphan_predicate_counterexample :
    (isOrphaned
        (PolicyInfo.mk "p1" "" "ClusterPolicy"
          [("policy-version", "v1"), ("artifact-name", "a")])
        (ClusterState.mk ["a"] [PodInfo.mk "kyverno-artifact-manager-ab" Phase.running []])
        = false
      ∧ claimOrphaned
        (PolicyInfo.mk "p1" "" "ClusterPolicy"
          [("policy-version", "v1"), ("artifact-name", "a")])
        (ClusterState.mk ["a"] [PodInfo.mk "kyverno-artifact-manager-ab" Phase.running []])
        = true)
    ∧ (isOrphaned
        (PolicyInfo.mk "p2" "" "ClusterPolicy" [("policy-version", "v1")])
        (ClusterState.mk ["a"] [PodInfo.mk "kyverno-artifact-manager-a" Phase.running []])
        = true
      ∧ claimOrphaned
        (PolicyInfo.mk "p2" "" "ClusterPolicy" [("policy-version", "v1")])
        (ClusterState.mk ["a"] [PodInfo.mk "kyverno-artifact-manager-a" Phase.running []])
        = false) :=
  ⟨⟨rfl, rfl⟩, rfl, rfl⟩

/-- C7 (amended): the orphan predicate never fires without a
`policy-version` label; with an `artifact-name` label it fires iff the
named declared artifact is absent cluster-wide or no pod whose name
starts with `kyverno-artifact-manager-<artifactName>` is in phase Running
or Pending; without one it fires iff there are no declared artifacts
cluster-wide or no pod carrying the label `app=kyverno-artifact-manager`
with the watcher-name pattern is in a non-terminal phase. -/
theorem gc_orphan_predicate (policy : PolicyInfo) (cs : ClusterState) :
    (labelGet policy.labels "policy-version" = none → isOrphaned policy cs = false)
    ∧ (∀ v a, labelGet policy.labels "policy-version" = some v →
        labelGet policy.labels "artifact-name" = some a →
        (isOrphaned policy cs = true ↔
          ((¬ ∃ n ∈ cs.artifacts, n = a)
            ∨ ¬ ∃ p ∈ cs.pods,
                goHasPre p.name ("kyverno-artifact-manager-" ++ a) = true
                  ∧ (p.phase = Phase.running ∨ p.phase = Phase.pending))))
    ∧ (∀ v, labelGet policy.labels "policy-version" = some v →
        labelGet policy.labels "artifact-name" = none →
        (isOrphaned policy cs = true ↔
          (cs.artifacts = []
            ∨ ¬ ∃ p ∈ cs.pods,
                labelGet p.labels "app" = some "kyverno-artifact-manager"
                  ∧ goHasPre p.name "kyverno-artifact-manager-" = true
                  ∧ (p.phase = Phase.running ∨ p.phase = Phase.pending)))) := by
  refine ⟨?_, ?_, ?_⟩
  · intro hv
    unfold isOrphaned
    rw [hv]
  · intro v a hv ha
    have hval : isOrphaned policy cs = true ↔
        (¬ (checkForSpecificKyvernoArtifact cs.artifacts a = true)
          ∨ ¬ (checkForSpecificWatcher cs.pods a = true)) := by
      unfold isOrphaned
      rw [hv, ha]
      cases hA : checkForSpecificKyvernoArtifact cs.artifacts a <;>
        cases hW : checkForSpecificWatcher cs.pods a <;> simp [hA, hW]
    have hA : checkForSpecificKyvernoArtifact cs.artifacts a = true
        ↔ ∃ n ∈ cs.artifacts, n = a := by
      simp [checkForSpecificKyvernoArtifact]
    have hW : checkForSpecificWatcher cs.pods a = true
        ↔ ∃ p ∈ cs.pods,
            goHasPre p.name ("kyverno-artifact-manager-" ++ a) = true
              ∧ (p.phase = Phase.running ∨ p.phase = Phase.pending) := by
      simp [checkForSpecificWatcher]
    rw [hval, hA, hW]
  · intro v hv ha
    have hval : isOrphaned policy cs = true ↔
        (¬ (checkForActiveWatchers cs.pods = true)
          ∨ ¬ (checkForKyvernoArtifacts cs.artifacts = true)) := by
      unfold isOrphaned isOrphanedLegacy
      rw [hv, ha]
      cases hWb : checkForActiveWatchers cs.pods <;>
        cases hKb : checkForKyvernoArtifacts cs.artifacts <;> simp [hWb, hKb]
    have hW : checkForActiveWatchers cs.pods = true
        ↔ ∃ p ∈ cs.pods,
            labelGet p.labels "app" = some "kyverno-artifact-manager"
              ∧ goHasPre p.name "kyverno-artifact-manager-" = true
              ∧ (p.phase = Phase.running ∨ p.phase = Phase.pending) := by
      simp [checkForActiveWatchers, List.any_eq_true, List.mem_filter, and_assoc]
    have hK : ¬ (checkForKyvernoArtifacts cs.artifacts = true) ↔ cs.artifacts = [] := by
      cases harts : cs.artifacts <;> simp [checkForKyvernoArtifacts]
    rw [hval, hW]
    constructor
    · intro h
      rcases h with h | h
      · exact Or.inr h
      · exact Or.inl (hK.mp h)
    · intro h
      rcases h with h | h
      · exact Or.inr (hK.mpr h)
      · exact Or.inl h

/-- Witness for `gc_orphan_predicate`: a policy without a
`policy-version` label is never orphaned. -/
theorem gc_orphan_predicate_witness :
    isOrphaned (PolicyInfo.mk "p0" "" "Policy" [("managed-by", "kyverno-watcher")])
      (ClusterState.mk [] []) = false :=
  (gc_orphan_predicate
    (PolicyInfo.mk "p0" "" "Policy" [("managed-by", "kyverno-watcher")])
    (ClusterState.mk [] [])).1 rfl

/-- C8: a policy is never deleted in the cycle that first observes it
orphaned — that observation only records a timestamp in the grace map; a
later observation re-evaluates the predicate and deletes only when still
orphaned, dropping the map entry after deletion; and any observation of
the policy as not orphaned drops its pending entry without deleting. -/
theorem gc_two_phase_deletion (cs : ClusterState) (now : Nat) (m : OrphanMap)
    (policy : PolicyInfo) :
    (isOrphaned policy cs = true → orphanMapHas m (getPolicyKey policy) = false →
       collectGarbage cs now m [policy]
         = (orphanMapInsert m (getPolicyKey policy) now, []))
    ∧ (isOrphaned policy cs = true → orphanMapHas m (getPolicyKey policy) = true →
       collectGarbage cs now m [policy]
         = (orphanMapErase m (getPolicyKey policy), [policy]))
    ∧ (isOrphaned policy cs = false →
       collectGarbage cs now m [policy]
         = (orphanMapErase m (getPolicyKey policy), [])) := by
  have hcg : collectGarbage cs now m [policy] = processPolicy cs now (m, []) policy := rfl
  refine ⟨?_, ?_, ?_⟩
  · intro ho hhas
    rw [hcg]
    simp [processPolicy, ho, hhas]
  · intro ho hhas
    rw [hcg]
    simp [processPolicy, ho, hhas]
  · intro ho
    rw [hcg]
    cases hhas : orphanMapHas m (getPolicyKey policy) with
    | true => simp [processPolicy, ho, hhas]
    | false =>
      rw [orphanMapErase_of_not_has m (getPolicyKey policy) hhas]
      simp [processPolicy, ho, hhas]

/-- Witness for `gc_two_phase_deletion`: a policy whose declared artifact
is gone is only recorded, not deleted, on first observation. -/
theorem gc_two_phase_deletion_witness :
    collectGarbage (ClusterState.mk [] []) 5 []
      [PolicyInfo.mk "p" "" "ClusterPolicy"
        [("policy-version", "v1"), ("artifact-name", "a")]]
      = (orphanMapInsert []
          (getPolicyKey (PolicyInfo.mk "p" "" "ClusterPolicy"
            [("policy-version", "v1"), ("artifact-name", "a")])) 5, []) :=
  (gc_two_phase_deletion (ClusterState.mk [] []) 5 []
    (PolicyInfo.mk "p" "" "ClusterPolicy"
      [("policy-version", "v1"), ("artifact-name", "a")])).1 rfl rfl

/-- C9 counterexample: the claim says that for an empty GHCR version list
"the cycle does nothing" — but when checksum reconciliation is enabled
the cycle still pulls (with the empty tag), applies the reconciler's
files and rewrites the last-applied-tag file, as this concrete run
shows. -/
theorem github_empty_versions_counterexample :
    tagChangedPollingGithub [] none = (false, "", "")
    ∧ watchLoop ⟨true, true, "b"⟩
        (WEnv.mk (Except.ok (false, "", "")) (Except.ok ())
          (Except.ok [("p.yaml", "c")]) (true, ["p.yaml"]) (Except.ok ())) none
      = Except.ok (some "", [WAction.pullA "", WAction.applyFileA "p.yaml",
          WAction.writeLastA ""]) :=
  ⟨rfl, rfl⟩

/-- C9 (amended): for a non-empty GHCR version list the lookup picks a
version whose `updated_at` is maximal and returns its first container tag
when it has one, the pseudo-tag `version-id-<id>` otherwise; for an empty
version list it returns the empty string, no tag change is reported, and
the cycle does nothing when checksum reconciliation is disabled. -/
theorem github_latest_tag_selection (versions : List GitHubPackageVersion)
    (cfg : WConfig) (env : WEnv) (lf : Option String) :
    (versions ≠ [] →
       ∃ v ∈ versions, (∀ w ∈ versions, w.updatedAt ≤ v.updatedAt)
         ∧ (∀ t ts, v.tags = t :: ts → getLatestTagOrDigest versions = t)
         ∧ (v.tags = [] → getLatestTagOrDigest versions
              = "version-id-" ++ toString v.id))
    ∧ getLatestTagOrDigest [] = ""
    ∧ tagChangedPollingGithub [] lf = (false, "", "")
    ∧ (cfg.pollForTagChanges = true → cfg.reconcilePoliciesFromChecksum = false →
        env.tagChangedR = Except.ok (tagChangedPollingGithub [] lf) →
        watchLoop cfg env lf = Except.ok (lf, [])) := by
  refine ⟨?_, rfl, rfl, ?_⟩
  · intro hne
    cases hv : versions with
    | nil => exact absurd hv hne
    | cons v0 rest =>
      have hspec := pickLatest_fold_spec (v0 :: rest) v0
      have hmem : pickLatest v0 (v0 :: rest) ∈ v0 :: rest := by
        rcases hspec.1 with h | h
        · rw [h]
          exact List.mem_cons_self v0 rest
        · exact h
      refine ⟨pickLatest v0 (v0 :: rest), hmem, hspec.2.2, ?_, ?_⟩
      · intro t ts ht
        unfold getLatestTagOrDigest
        dsimp only
        rw [ht]
      · intro ht
        unfold getLatestTagOrDigest
        dsimp only
        rw [ht]
  · intro hpoll hrec htag
    unfold watchLoop
    rw [hpoll, if_pos rfl, htag]
    exact watchLoopAfterTag_noop cfg env lf
      (tagChangedPollingGithub [] lf).2.1 hrec

/-- Witness for `github_latest_tag_selection`: with an empty version list
and checksum reconciliation disabled, the cycle is a no-op. -/
theorem github_latest_tag_selection_witness :
    watchLoop ⟨true, false, "b"⟩ envQuiet none = Except.ok (none, []) :=
  (github_latest_tag_selection [] ⟨true, false, "b"⟩ envQuiet none).2.2.2 rfl rfl rfl

end KyvernoArtifactOperator
